import Mathlib

/-!
Shallow embedding of the hanabi-core crate (src/hanabi-core/src/lib.rs and
src/hanabi-core/src/error.rs): the card catalog, Field, PlayerInfo, Game
with its single mutating entry point process_action, and deck preparation.

Rust mutation is modelled by explicit state passing: a method taking
`&mut self` becomes a Lean function returning the updated value alongside
its result.  `Uuid`-based card ids become `Nat` (the source only compares
them for equality); the source generates them fresh per card, so deck
preparation assigns ids by generation index.  The random shuffle is an
external input: functions that the source runs after `rng.shuffle` take the
shuffled list as a parameter, constrained to be a permutation of the
generated card universe.  `Vec::pop`'s possible `None` (unwrapped in the
source) is surfaced as `Option`.
-/

deriving instance DecidableEq for Except

namespace Hanabi

/-- colors of hanabi cards -/
inductive Color where
  | White
  | Red
  | Blue
  | Yellow
  | Green
  | Multi
  deriving DecidableEq, Repr

def Color.to_usize : Color → Nat
  | .White => 0
  | .Red => 1
  | .Blue => 2
  | .Yellow => 3
  | .Green => 4
  | .Multi => 5

/-- number of hanabi cards -/
inductive Number where
  | One
  | Two
  | Three
  | Four
  | Five
  deriving DecidableEq, Repr

def Number.to_usize : Number → Nat
  | .One => 1
  | .Two => 2
  | .Three => 3
  | .Four => 4
  | .Five => 5

/-- unique identifier of cards (Uuid in the source; only equality is used) -/
abbrev CardId := Nat

/-- hanabi card -/
structure Card where
  number : Number
  color : Color
  id : CardId
  deriving DecidableEq, Repr

/-- Player information in the game -/
structure PlayerInfo where
  player_id : Nat
  hands : List Card
  deriving DecidableEq, Repr

def PlayerInfo.card_idx (p : PlayerInfo) (id : CardId) : Option Nat :=
  p.hands.findIdx? (fun card => card.id = id)

/-- `Vec::remove(idx)` returns the element at `idx` and shifts the rest;
the source only calls it at an index returned by `card_idx`, so the
out-of-range panic is modelled by `Option` and proved unreachable where
used. -/
def PlayerInfo.remove_card (p : PlayerInfo) (idx : Nat) :
    Option (Card × PlayerInfo) :=
  match p.hands[idx]? with
  | none => none
  | some c => some (c, { p with hands := p.hands.eraseIdx idx })

/-- kind of card information -/
inductive CardInfoKind where
  | Color (c : Color)
  | Number (n : Number)
  deriving DecidableEq, Repr

/-- what to tell -/
structure CardInfo where
  kind : CardInfoKind
  player : Nat
  deriving DecidableEq, Repr

/-- result of a validated tell (`cards` is a `HashSet<CardId>`) -/
structure CardInfoInner where
  kind : CardInfoKind
  cards : Finset CardId
  player : Nat
  deriving DecidableEq

/-- Player Action -/
inductive Action where
  | Tell (info : CardInfo)
  | Discard (id : CardId)
  | Play (id : CardId)
  deriving DecidableEq, Repr

/-- error taxonomy from src/hanabi-core/src/error.rs -/
inductive CoreError where
  | InvalidCard (id : CardId)
  | InvalidPlayer (n : Nat)
  | IncorrectInfo (info : CardInfo)
  deriving DecidableEq, Repr

/-- cards in field -/
structure Field where
  inner : List (List Card)
  deriving DecidableEq, Repr

def Field.new : Field := ⟨List.replicate 6 []⟩

/-- rank of the last card of the stack at index `id`, or 0 when empty
(the `match self.inner[id].last()` of the source) -/
def Field.last_number (f : Field) (id : Nat) : Nat :=
  match (f.inner.getD id []).getLast? with
  | some card => card.number.to_usize
  | none => 0

/-- `Field::add`: `&mut self` is modelled by returning the updated field
next to the Bool result (the source's `id` binding is inlined) -/
def Field.add (f : Field) (card : Card) : Bool × Field :=
  if f.last_number card.color.to_usize + 1 = card.number.to_usize then
    (true, ⟨f.inner.set card.color.to_usize
      ((f.inner.getD card.color.to_usize []) ++ [card])⟩)
  else
    (false, f)

/-- game information(runtime) -/
structure Game where
  players : List PlayerInfo
  stack : List Card
  discards : List Card
  field : Field
  player_num : Nat
  is_multi : Bool
  is_grand_finale : Bool
  deriving DecidableEq

def Game.is_valid_player (g : Game) (n : Nat) : Bool :=
  n < g.player_num

/-- default used to model `self.players[player]`: indexing a `Vec` at a
valid position; reachable states have `player_num = players.length` so the
default is never taken under the validity check -/
def dfltPlayer : PlayerInfo := ⟨0, []⟩

/-- the predicate closure of `construct_info` -/
def matchesKind (k : CardInfoKind) (card : Card) : Bool :=
  match k with
  | .Color c => card.color = c
  | .Number n => card.number = n

def Game.construct_info (g : Game) (info : CardInfo) :
    Option (Finset CardId) :=
  if ¬ g.is_valid_player info.player then
    none
  else
    some ((((g.players.getD info.player dfltPlayer).hands.filter
      (matchesKind info.kind)).map (fun card => card.id)).toFinset)

/-- the `get_card!` macro body of `process_action`: look the id up in the
player's hand and remove it on success -/
def Game.get_card (g : Game) (player : Nat) (id : CardId) :
    Option (Card × PlayerInfo) :=
  match (g.players.getD player dfltPlayer).card_idx id with
  | none => none
  | some idx => (g.players.getD player dfltPlayer).remove_card idx

/-- `Game::process_action`: the `&mut self` receiver is modelled by
returning the updated game next to the `Result` -/
def Game.process_action (g : Game) (player : Nat) (act : Action) :
    Game × Except CoreError (Option CardInfoInner) :=
  if ¬ g.is_valid_player player then
    (g, .error (.InvalidPlayer player))
  else
    match act with
    | .Discard id =>
      match g.get_card player id with
      | none => (g, .error (.InvalidCard id))
      | some (card, p') =>
        ({ g with players := g.players.set player p',
                  discards := g.discards ++ [card] }, .ok none)
    | .Play id =>
      match g.get_card player id with
      | none => (g, .error (.InvalidCard id))
      | some (card, p') =>
        let g1 := { g with players := g.players.set player p' }
        match g1.field.add card with
        | (true, f') => ({ g1 with field := f' }, .ok none)
        | (false, _) => (g1, .error (.InvalidCard id))
    | .Tell info =>
      match g.construct_info info with
      | some cards =>
        if cards = ∅ then
          (g, .error (.IncorrectInfo info))
        else
          (g, .ok (some ⟨info.kind, cards, info.player⟩))
      | none => (g, .error (.IncorrectInfo info))

/-- game config -/
structure Config where
  player_num : Nat
  is_multi : Bool
  is_grand_finale : Bool
  deriving DecidableEq, Repr

def Config.new (n : Nat) : Option Config :=
  if n < 2 ∨ n > 5 then
    none
  else
    some ⟨n, false, false⟩

def Config.multi (c : Config) (f : Bool) : Config :=
  { c with is_multi := f }

def Config.grand_finale (c : Config) (f : Bool) : Config :=
  { c with is_grand_finale := f }

/-- the order `Color::iter_variants()` yields variants -/
def colorVariants : List Color :=
  [.White, .Red, .Blue, .Yellow, .Green, .Multi]

/-- the order `Number::iter_variants()` yields variants -/
def numberVariants : List Number :=
  [.One, .Two, .Three, .Four, .Five]

/-- the card universe built at the top of `prepare_cards` before the
shuffle: 6 color kinds unless `is_multi`, then 5; ids are assigned by
generation index, modelling the fresh Uuid of `Card::new` -/
def mkUniverse (is_multi : Bool) : List Card :=
  let card_kinds := if is_multi then 5 else 6
  (((colorVariants.take card_kinds).flatMap
    (fun var => numberVariants.map (fun num => (num, var)))).enum).map
    (fun p => ⟨p.2.1, p.2.2, p.1⟩)

/-- `Vec::pop`: remove and return the last element -/
def vecPop (v : List Card) : Option (Card × List Card) :=
  match v.getLast? with
  | none => none
  | some c => some (c, v.dropLast)

/-- the inner dealing loop `for i in 0..n`: one card popped off the stack
and pushed onto each hand in order -/
def dealOnce : List (List Card) → List Card →
    Option (List (List Card) × List Card)
  | [], deck => some ([], deck)
  | h :: hs, deck =>
    match vecPop deck with
    | none => none
    | some (c, deck') =>
      match dealOnce hs deck' with
      | none => none
      | some (hs', deck'') => some ((h ++ [c]) :: hs', deck'')

/-- the outer dealing loop `for _ in 0..card_num` -/
def dealRounds : Nat → List (List Card) → List Card →
    Option (List (List Card) × List Card)
  | 0, hands, deck => some (hands, deck)
  | r + 1, hands, deck =>
    match dealOnce hands deck with
    | none => none
    | some (hands', deck') => dealRounds r hands' deck'

/-- `prepare_cards` after the shuffle: the shuffled stack is a parameter;
the `unwrap` on `pop` is surfaced as `Option` -/
def prepare_cards (n : Nat) (shuffled : List Card) :
    Option (List (List Card) × List Card) :=
  let card_num := if n ≤ 3 then 5 else 4
  dealRounds card_num (List.replicate n []) shuffled

/-- `Config::build`, with the shuffled deck passed in -/
def Config.build (c : Config) (shuffled : List Card) : Option Game :=
  match prepare_cards c.player_num shuffled with
  | none => none
  | some (player_cards, stack) =>
    some { players := (player_cards.enum).map
             (fun p => PlayerInfo.mk p.1 p.2),
           stack := stack,
           discards := [],
           field := Field.new,
           player_num := c.player_num,
           is_multi := c.is_multi,
           is_grand_finale := c.is_grand_finale }

/-- the per-color stack invariant of §3 of the spec: every card on the
stack at index `i` has color index `i`, and the ranks read 1, 2, …, k
bottom to top -/
def StackOk (i : Nat) (s : List Card) : Prop :=
  (∀ c ∈ s, c.color.to_usize = i) ∧
  s.map (fun c => c.number.to_usize) = List.range' 1 s.length

instance (i : Nat) (s : List Card) : Decidable (StackOk i s) := by
  unfold StackOk
  infer_instance

/-- the whole-field invariant: six stacks, each satisfying `StackOk` -/
def FieldInv (f : Field) : Prop :=
  f.inner.length = 6 ∧ ∀ i, i < 6 → StackOk i (f.inner.getD i [])

instance (f : Field) : Decidable (FieldInv f) := by
  unfold FieldInv
  infer_instance

/-! Concrete fixtures used by witnesses and counterexamples. -/

def exCard1 : Card := ⟨.One, .Red, 0⟩
def exCard2 : Card := ⟨.Two, .Red, 1⟩
def exCard3 : Card := ⟨.One, .White, 2⟩

/-- a small two-player game state -/
def exGame : Game :=
  { players := [⟨0, [exCard1, exCard2]⟩, ⟨1, [exCard3]⟩],
    stack := [],
    discards := [],
    field := Field.new,
    player_num := 2,
    is_multi := false,
    is_grand_finale := false }

theorem color_to_usize_lt (c : Color) : c.to_usize < 6 := by
  cases c <;> decide

/-! Helper lemmas shared by the claim proofs. -/

theorem map_eraseIdx {α β : Type} (f : α → β) :
    ∀ (l : List α) (i : Nat), (l.eraseIdx i).map f = (l.map f).eraseIdx i
  | [], _ => rfl
  | _ :: _, 0 => rfl
  | a :: l, i + 1 => by
    simp only [List.eraseIdx, List.map_cons]
    rw [map_eraseIdx f l i]

theorem getElem_not_mem_eraseIdx_of_nodup :
    ∀ (l : List CardId) (i : Nat) (hi : i < l.length), l.Nodup →
      l.get ⟨i, hi⟩ ∉ l.eraseIdx i
  | a :: l, 0, _, h => by
    simpa using (List.nodup_cons.mp h).1
  | a :: l, i + 1, hi, h => by
    have hi' : i < l.length := Nat.lt_of_succ_lt_succ hi
    have ih := getElem_not_mem_eraseIdx_of_nodup l i hi'
      (List.nodup_cons.mp h).2
    intro hmem
    simp only [List.eraseIdx] at hmem
    rcases List.mem_cons.mp hmem with heq | hmem'
    · have hin : l.get ⟨i, hi'⟩ ∈ l := List.get_mem l i hi'
      rw [show (a :: l).get ⟨i + 1, hi⟩ = l.get ⟨i, hi'⟩ from rfl] at heq
      rw [heq] at hin
      exact (List.nodup_cons.mp h).1 hin
    · exact ih hmem'

/-- unpacking a successful `get_card`: the returned card was in the hand,
has the requested id, and the returned hand is the old one with that
position erased -/
theorem get_card_eq_some {g : Game} {player : Nat} {cid : CardId}
    {c : Card} {p' : PlayerInfo}
    (h : g.get_card player cid = some (c, p')) :
    c ∈ (g.players.getD player dfltPlayer).hands ∧ c.id = cid ∧
    ∃ idx, ∃ hidx : idx < (g.players.getD player dfltPlayer).hands.length,
      (g.players.getD player dfltPlayer).hands.get ⟨idx, hidx⟩ = c ∧
      p' = { player_id := (g.players.getD player dfltPlayer).player_id,
             hands := (g.players.getD player dfltPlayer).hands.eraseIdx
               idx } := by
  unfold Game.get_card at h
  split at h
  · exact absurd h (by simp)
  · rename_i idx hfind
    unfold PlayerInfo.card_idx at hfind
    rw [List.findIdx?_eq_some_iff_getElem] at hfind
    obtain ⟨hidx, hpred, -⟩ := hfind
    unfold PlayerInfo.remove_card at h
    rw [List.getElem?_eq_getElem hidx] at h
    simp only [Option.some.injEq, Prod.mk.injEq] at h
    obtain ⟨hc, hp'⟩ := h
    subst hc
    exact ⟨List.get_mem _ idx hidx, by simpa using hpred,
      idx, hidx, rfl, hp'.symm⟩

/-- a failed `get_card` means no card in the hand has the requested id -/
theorem get_card_eq_none {g : Game} {player : Nat} {cid : CardId}
    (h : g.get_card player cid = none) :
    ∀ c ∈ (g.players.getD player dfltPlayer).hands, c.id ≠ cid := by
  unfold Game.get_card at h
  split at h
  · rename_i hfind
    unfold PlayerInfo.card_idx at hfind
    rw [List.findIdx?_eq_none_iff] at hfind
    intro c hc
    have := hfind c hc
    simpa using this
  · rename_i idx hfind
    unfold PlayerInfo.card_idx at hfind
    rw [List.findIdx?_eq_some_iff_getElem] at hfind
    obtain ⟨hidx, -, -⟩ := hfind
    unfold PlayerInfo.remove_card at h
    rw [List.getElem?_eq_getElem hidx] at h
    exact absurd h (by simp)

/-- a card with the requested id in the hand makes `get_card` succeed -/
theorem get_card_isSome {g : Game} {player : Nat} {cid : CardId}
    (h : ∃ c ∈ (g.players.getD player dfltPlayer).hands, c.id = cid) :
    ∃ c p', g.get_card player cid = some (c, p') := by
  cases hg : g.get_card player cid with
  | none =>
    obtain ⟨c, hc, hid⟩ := h
    exact absurd hid (get_card_eq_none hg c hc)
  | some cp => exact ⟨cp.1, cp.2, rfl⟩

theorem vecPop_of_ne_nil {v : List Card} (h : v ≠ []) :
    vecPop v = some (v.getLast h, v.dropLast) := by
  unfold vecPop
  rw [List.getLast?_eq_getLast v h]


theorem some_pair_inj {α β : Type} {a a' : α} {b b' : β}
    (h : (some (a, b) : Option (α × β)) = some (a', b')) :
    a = a' ∧ b = b' := by
  injection h with h'
  exact ⟨congrArg Prod.fst h', congrArg Prod.snd h'⟩

/-- dealing one card to every hand succeeds whenever the deck is at least
as long as the list of hands; it preserves the multiset of cards, shrinks
the deck by the number of hands, and keeps the number of hands -/
theorem dealOnce_some : ∀ (hands : List (List Card)) (deck : List Card),
    hands.length ≤ deck.length →
    ∃ hands' deck', dealOnce hands deck = some (hands', deck') ∧
      hands'.length = hands.length ∧
      deck'.length + hands.length = deck.length ∧
      (hands'.flatten ++ deck').Perm (hands.flatten ++ deck)
  | [], deck, _ => ⟨[], deck, rfl, rfl, by simp, List.Perm.refl _⟩
  | h :: hs, deck, hle => by
    have hne : deck ≠ [] := by
      intro h0
      rw [h0] at hle
      simp at hle
    have hpop := vecPop_of_ne_nil hne
    have hle' : hs.length ≤ deck.dropLast.length := by
      rw [List.length_dropLast]
      have hx : hs.length + 1 ≤ deck.length := by simpa using hle
      omega
    obtain ⟨hs', d2, hrec, hl1, hl2, hperm⟩ :=
      dealOnce_some hs deck.dropLast hle'
    have hdeck : deck = deck.dropLast ++ [deck.getLast hne] :=
      (List.dropLast_append_getLast hne).symm
    refine ⟨(h ++ [deck.getLast hne]) :: hs', d2, ?_, ?_, ?_, ?_⟩
    · unfold dealOnce
      simp only [hpop, hrec]
    · simpa using hl1
    · have hdl : deck.dropLast.length = deck.length - 1 :=
        List.length_dropLast deck
      have hd1 : 1 ≤ deck.length := by
        have hx : hs.length + 1 ≤ deck.length := by simpa using hle
        omega
      simp only [List.length_cons]
      omega
    · have s1 : ((h ++ [deck.getLast hne]) :: hs').flatten ++ d2 =
          h ++ ([deck.getLast hne] ++ (hs'.flatten ++ d2)) := by
        simp [List.flatten_cons, List.append_assoc]
      have s2 : (h ++ ([deck.getLast hne] ++
          (hs'.flatten ++ d2))).Perm
          (h ++ ([deck.getLast hne] ++
            (hs.flatten ++ deck.dropLast))) :=
        List.Perm.append_left h
          (List.Perm.append_left [deck.getLast hne] hperm)
      have s3 : (h ++ ([deck.getLast hne] ++
          (hs.flatten ++ deck.dropLast))).Perm
          (h ++ ((hs.flatten ++ deck.dropLast) ++
            [deck.getLast hne])) :=
        List.Perm.append_left h List.perm_append_comm
      have s4 : h ++ ((hs.flatten ++ deck.dropLast) ++
          [deck.getLast hne]) = (h :: hs).flatten ++ deck := by
        conv_rhs => rw [hdeck]
        simp [List.flatten_cons, List.append_assoc]
      rw [s1, ← s4]
      exact s2.trans s3

/-- the outer dealing loop: needs `r * hands.length` cards -/
theorem dealRounds_some : ∀ (r : Nat) (hands : List (List Card))
    (deck : List Card), r * hands.length ≤ deck.length →
    ∃ hands' deck', dealRounds r hands deck = some (hands', deck') ∧
      hands'.length = hands.length ∧
      deck'.length + r * hands.length = deck.length ∧
      (hands'.flatten ++ deck').Perm (hands.flatten ++ deck)
  | 0, hands, deck, _ =>
    ⟨hands, deck, rfl, rfl, by simp, List.Perm.refl _⟩
  | r + 1, hands, deck, hle => by
    rw [Nat.succ_mul] at hle
    have hle1 : hands.length ≤ deck.length :=
      le_trans (Nat.le_add_left _ _) hle
    obtain ⟨h1, d1, hdo, hlen1, hdlen1, hperm1⟩ :=
      dealOnce_some hands deck hle1
    have hle2 : r * h1.length ≤ d1.length := by
      rw [hlen1]
      have hx : r * hands.length + hands.length ≤
          d1.length + hands.length := hdlen1 ▸ hle
      exact Nat.le_of_add_le_add_right hx
    obtain ⟨hands', deck', hdr, hlen2, hdlen2, hperm2⟩ :=
      dealRounds_some r h1 d1 hle2
    refine ⟨hands', deck', ?_, ?_, ?_, ?_⟩
    · unfold dealRounds
      simp only [hdo, hdr]
    · rw [hlen2, hlen1]
    · rw [Nat.succ_mul, ← Nat.add_assoc]
      rw [hlen1] at hdlen2
      rw [hdlen2, hdlen1]
    · exact hperm2.trans hperm1

/-- dealing one round raises every hand size by one -/
theorem dealOnce_uniform : ∀ (hands : List (List Card))
    (deck : List Card) (hands' : List (List Card)) (deck' : List Card)
    (m : Nat), dealOnce hands deck = some (hands', deck') →
    (∀ x ∈ hands, x.length = m) → ∀ x ∈ hands', x.length = m + 1
  | [], deck, hands', deck', m, h, _ => by
    obtain ⟨rfl, rfl⟩ :
        ([] : List (List Card)) = hands' ∧ deck = deck' :=
      some_pair_inj h
    intro x hx
    simp at hx
  | h :: hs, deck, hands', deck', m, hdeal, hu => by
    unfold dealOnce at hdeal
    cases hpop : vecPop deck with
    | none =>
      rw [hpop] at hdeal
      exact absurd hdeal (by simp)
    | some pr =>
      obtain ⟨c, d1⟩ := pr
      simp only [hpop] at hdeal
      cases hrec : dealOnce hs d1 with
      | none =>
        rw [hrec] at hdeal
        exact absurd hdeal (by simp)
      | some pr2 =>
        obtain ⟨hs', d2⟩ := pr2
        simp only [hrec] at hdeal
        obtain ⟨rfl, rfl⟩ :
            (h ++ [c]) :: hs' = hands' ∧ d2 = deck' :=
          some_pair_inj hdeal
        intro x hx
        rcases List.mem_cons.mp hx with rfl | hx'
        · rw [List.length_append, hu h (List.mem_cons_self _ _)]
          simp
        · exact dealOnce_uniform hs d1 hs' d2 m hrec
            (fun y hy => hu y (List.mem_cons_of_mem _ hy)) x hx'

/-- dealing `r` rounds raises every hand size by `r` -/
theorem dealRounds_uniform : ∀ (r : Nat) (hands : List (List Card))
    (deck : List Card) (hands' : List (List Card)) (deck' : List Card)
    (m : Nat), dealRounds r hands deck = some (hands', deck') →
    (∀ x ∈ hands, x.length = m) → ∀ x ∈ hands', x.length = m + r
  | 0, hands, deck, hands', deck', m, h, hu => by
    obtain ⟨rfl, rfl⟩ : hands = hands' ∧ deck = deck' :=
      some_pair_inj h
    simpa using hu
  | r + 1, hands, deck, hands', deck', m, hdeal, hu => by
    unfold dealRounds at hdeal
    cases hdo : dealOnce hands deck with
    | none =>
      rw [hdo] at hdeal
      exact absurd hdeal (by simp)
    | some pr =>
      obtain ⟨h1, d1⟩ := pr
      simp only [hdo] at hdeal
      have hu1 := dealOnce_uniform hands deck h1 d1 m hdo hu
      have hruns := dealRounds_uniform r h1 d1 hands' deck' (m + 1)
        hdeal hu1
      intro x hx
      rw [hruns x hx]
      omega

/-! Theorems for the claims. -/

/-- C8: for every game state and action of any variant, an acting player
index that is not strictly below `player_num` makes `process_action` fail
with `InvalidPlayer` before any other check, leaving the game unchanged. -/
theorem actor_check_first (g : Game) (player : Nat) (act : Action)
    (h : ¬ player < g.player_num) :
    g.process_action player act = (g, .error (.InvalidPlayer player)) := by
  simp [Game.process_action, Game.is_valid_player, h]

theorem actor_check_first_w :
    exGame.process_action 7 (.Play 0) =
      (exGame, .error (.InvalidPlayer 7)) :=
  actor_check_first exGame 7 (.Play 0) (by decide)

/-- C9: a `Tell` action never mutates the game: whatever `process_action`
returns, the game component of the result is the input game. -/
theorem tell_frame (g : Game) (player : Nat) (info : CardInfo) :
    (g.process_action player (.Tell info)).1 = g := by
  by_cases hp : g.is_valid_player player
  · cases h : g.construct_info info with
    | none => simp [Game.process_action, hp, h]
    | some cards =>
      by_cases hc : cards = ∅ <;>
        simp [Game.process_action, hp, h, hc]
  · simp [Game.process_action, hp]

/-- C7 counterexample: a Tell by a valid actor naming target player 5 in a
two-player game fails with `IncorrectInfo`, not `InvalidPlayer 5` as the
claim states. -/
theorem tell_invalid_target_cx :
    (exGame.process_action 0 (.Tell ⟨.Color .Red, 5⟩)).2 ≠
      Except.error (.InvalidPlayer 5) ∧
    (exGame.process_action 0 (.Tell ⟨.Color .Red, 5⟩)).2 =
      Except.error (.IncorrectInfo ⟨.Color .Red, 5⟩) := by
  constructor
  · decide
  · decide

/-- C7 amended: a Tell by a valid actor whose target player index is
outside `[0, player_num)` fails with the `IncorrectInfo` error carrying
the hint (the code folds the invalid-target case into `IncorrectInfo`). -/
theorem tell_invalid_target (g : Game) (player : Nat) (info : CardInfo)
    (hp : player < g.player_num) (ht : ¬ info.player < g.player_num) :
    g.process_action player (.Tell info) =
      (g, .error (.IncorrectInfo info)) := by
  simp [Game.process_action, Game.is_valid_player, Game.construct_info,
    hp, ht]

theorem tell_invalid_target_w :
    exGame.process_action 0 (.Tell ⟨.Color .Red, 5⟩) =
      (exGame, .error (.IncorrectInfo ⟨.Color .Red, 5⟩)) :=
  tell_invalid_target exGame 0 ⟨.Color .Red, 5⟩ (by decide) (by decide)

/-- C4: `Field.add` succeeds exactly when the card's rank is one more than
the rank of the top of its color's stack (0 for an empty stack); on
success the card is appended to that stack and the others are untouched,
and on failure the whole field is unchanged. -/
theorem field_add_spec (f : Field) (card : Card)
    (h6 : f.inner.length = 6) :
    ((f.add card).1 = true ↔
      card.number.to_usize = f.last_number card.color.to_usize + 1) ∧
    (card.number.to_usize = f.last_number card.color.to_usize + 1 →
      (f.add card).2.inner.getD card.color.to_usize [] =
        (f.inner.getD card.color.to_usize []) ++ [card] ∧
      ∀ j, j ≠ card.color.to_usize →
        (f.add card).2.inner.getD j [] = f.inner.getD j []) ∧
    (card.number.to_usize ≠ f.last_number card.color.to_usize + 1 →
      (f.add card).2 = f) := by
  have hid : card.color.to_usize < f.inner.length := by
    rw [h6]; exact color_to_usize_lt card.color
  by_cases h : f.last_number card.color.to_usize + 1 = card.number.to_usize
  · refine ⟨?_, ?_, ?_⟩
    · simp only [Field.add, if_pos h]
      simpa using h.symm
    · intro _
      constructor
      · simp [Field.add, if_pos h, List.getD_eq_getElem?_getD,
          List.getElem?_set_eq_of_lt _ hid]
      · intro j hj
        simp [Field.add, if_pos h, List.getD_eq_getElem?_getD,
          List.getElem?_set_ne (Ne.symm hj)]
    · intro hc
      exact absurd h.symm hc
  · have h' : card.number.to_usize ≠ f.last_number card.color.to_usize + 1 :=
      fun hh => h hh.symm
    refine ⟨?_, ?_, ?_⟩
    · simp only [Field.add, if_neg h]
      simpa using h'
    · intro hc
      exact absurd hc h'
    · intro _
      simp [Field.add, h]

/-- C1: a Play by a valid player of a card that is in their hand but whose
rank is not one more than the top of its color's field stack fails with
`InvalidCard`, and afterwards the card is in neither the acting player's
hand, the field, nor the discards: it was removed from the hand before
the Field check and is neither restored nor discarded on rejection. -/
theorem play_rejected_drops_card (g : Game) (player : Nat) (cid : CardId)
    (hp : player < g.player_num)
    (hnodup : ((g.players.getD player dfltPlayer).hands.map
      (fun c => c.id)).Nodup)
    (hmem : ∃ c ∈ (g.players.getD player dfltPlayer).hands, c.id = cid ∧
      c.number.to_usize ≠ g.field.last_number c.color.to_usize + 1)
    (hfield : ∀ l ∈ g.field.inner, ∀ d ∈ l, d.id ≠ cid)
    (hdisc : ∀ d ∈ g.discards, d.id ≠ cid) :
    (g.process_action player (.Play cid)).2 =
      .error (.InvalidCard cid) ∧
    (∀ d ∈ ((g.process_action player (.Play cid)).1.players.getD player
      dfltPlayer).hands, d.id ≠ cid) ∧
    (∀ l ∈ (g.process_action player (.Play cid)).1.field.inner,
      ∀ d ∈ l, d.id ≠ cid) ∧
    (∀ d ∈ (g.process_action player (.Play cid)).1.discards,
      d.id ≠ cid) := by
  obtain ⟨c0, hc0mem, hc0id, hc0rank⟩ := hmem
  obtain ⟨c, p', hg⟩ := get_card_isSome ⟨c0, hc0mem, hc0id⟩
  obtain ⟨hcmem, hcid, idx, hidx, hgetc, hp'⟩ := get_card_eq_some hg
  have hceq : c = c0 :=
    List.inj_on_of_nodup_map hnodup hcmem hc0mem (by rw [hcid, hc0id])
  subst hceq
  have hplen : player < g.players.length := by
    by_contra hle
    push_neg at hle
    rw [List.getD_eq_default _ _ hle] at hc0mem
    exact absurd hc0mem (List.not_mem_nil c)
  have hvp : g.is_valid_player player = true := by
    simp [Game.is_valid_player, hp]
  have hadd : g.field.add c = (false, g.field) := by
    simp only [Field.add]
    rw [if_neg]
    intro hcontra
    exact hc0rank hcontra.symm
  have hrun : g.process_action player (.Play cid) =
      ({ g with players := g.players.set player p' },
        .error (.InvalidCard cid)) := by
    unfold Game.process_action
    rw [if_neg (by simp [hvp])]
    simp only [hg, hadd]
  refine ⟨by rw [hrun], ?_, ?_, ?_⟩
  · rw [hrun]
    intro d hd hdid
    have hgets : ((g.players.set player p').getD player dfltPlayer) =
        p' := by
      rw [List.getD_eq_getElem?_getD, List.getElem?_set_eq_of_lt _ hplen]
      rfl
    rw [show ({ g with players := g.players.set player p' } :
      Game).players = g.players.set player p' from rfl, hgets, hp'] at hd
    have hidx' : idx < ((g.players.getD player dfltPlayer).hands.map
        (fun c => c.id)).length := by
      simpa using hidx
    have hnotmem := getElem_not_mem_eraseIdx_of_nodup
      ((g.players.getD player dfltPlayer).hands.map (fun c => c.id))
      idx hidx' hnodup
    apply hnotmem
    have hget_map : ((g.players.getD player dfltPlayer).hands.map
        (fun c => c.id)).get ⟨idx, hidx'⟩ = cid := by
      rw [List.get_map]
      rw [show (g.players.getD player dfltPlayer).hands.get
        ⟨idx, by simpa using hidx'⟩ = c from hgetc]
      exact hcid
    rw [hget_map, ← map_eraseIdx]
    exact List.mem_map.mpr ⟨d, hd, hdid⟩
  · rw [hrun]
    exact hfield
  · rw [hrun]
    exact hdisc

theorem play_rejected_drops_card_w :
    (exGame.process_action 0 (.Play 1)).2 =
      .error (.InvalidCard 1) ∧
    (∀ d ∈ ((exGame.process_action 0 (.Play 1)).1.players.getD 0
      dfltPlayer).hands, d.id ≠ 1) ∧
    (∀ l ∈ (exGame.process_action 0 (.Play 1)).1.field.inner,
      ∀ d ∈ l, d.id ≠ 1) ∧
    (∀ d ∈ (exGame.process_action 0 (.Play 1)).1.discards, d.id ≠ 1) :=
  play_rejected_drops_card exGame 0 1 (by decide) (by decide)
    ⟨exCard2, by decide, by decide, by decide⟩ (by decide) (by decide)

/-- C2: whenever `process_action` returns an error, the draw stack, the
discards, the field and the config fields are unchanged, and the players
are unchanged as well, except in the single case of a Play whose card was
found in the hand but rejected by `Field.add`, where the found card has
already been removed from the acting player's hand. -/
theorem error_frame (g : Game) (player : Nat) (act : Action)
    (e : CoreError)
    (herr : (g.process_action player act).2 = .error e) :
    ((g.process_action player act).1.stack = g.stack ∧
     (g.process_action player act).1.discards = g.discards ∧
     (g.process_action player act).1.field = g.field ∧
     (g.process_action player act).1.player_num = g.player_num ∧
     (g.process_action player act).1.is_multi = g.is_multi ∧
     (g.process_action player act).1.is_grand_finale =
       g.is_grand_finale) ∧
    ((g.process_action player act).1 = g ∨
      ∃ cid c p', act = .Play cid ∧
        g.get_card player cid = some (c, p') ∧
        (g.field.add c).1 = false ∧
        (g.process_action player act).1 =
          { g with players := g.players.set player p' }) := by
  by_cases hvp : g.is_valid_player player
  case neg =>
    have hrun : g.process_action player act =
        (g, .error (.InvalidPlayer player)) := by
      unfold Game.process_action
      rw [if_pos (by simp [hvp])]
    rw [hrun]
    exact ⟨⟨rfl, rfl, rfl, rfl, rfl, rfl⟩, Or.inl rfl⟩
  case pos =>
    cases act with
    | Discard id =>
      cases hg : g.get_card player id with
      | none =>
        have hrun : g.process_action player (.Discard id) =
            (g, .error (.InvalidCard id)) := by
          unfold Game.process_action
          rw [if_neg (by simp [hvp])]
          simp only [hg]
        rw [hrun]
        exact ⟨⟨rfl, rfl, rfl, rfl, rfl, rfl⟩, Or.inl rfl⟩
      | some cp =>
        exfalso
        have hrun : (g.process_action player (.Discard id)).2 =
            .ok none := by
          unfold Game.process_action
          rw [if_neg (by simp [hvp])]
          simp only [hg]
        rw [hrun] at herr
        exact absurd herr (by simp)
    | Play id =>
      cases hg : g.get_card player id with
      | none =>
        have hrun : g.process_action player (.Play id) =
            (g, .error (.InvalidCard id)) := by
          unfold Game.process_action
          rw [if_neg (by simp [hvp])]
          simp only [hg]
        rw [hrun]
        exact ⟨⟨rfl, rfl, rfl, rfl, rfl, rfl⟩, Or.inl rfl⟩
      | some cp =>
        obtain ⟨c, p'⟩ := cp
        cases hadd : g.field.add c with
        | mk b f' =>
          cases b with
          | true =>
            exfalso
            have hrun : (g.process_action player (.Play id)).2 =
                .ok none := by
              unfold Game.process_action
              rw [if_neg (by simp [hvp])]
              simp only [hg, hadd]
            rw [hrun] at herr
            exact absurd herr (by simp)
          | false =>
            have hrun : g.process_action player (.Play id) =
                ({ g with players := g.players.set player p' },
                  .error (.InvalidCard id)) := by
              unfold Game.process_action
              rw [if_neg (by simp [hvp])]
              simp only [hg, hadd]
            rw [hrun]
            exact ⟨⟨rfl, rfl, rfl, rfl, rfl, rfl⟩,
              Or.inr ⟨id, c, p', rfl, hg, by rw [hadd], rfl⟩⟩
    | Tell info =>
      cases hci : g.construct_info info with
      | none =>
        have hrun : g.process_action player (.Tell info) =
            (g, .error (.IncorrectInfo info)) := by
          unfold Game.process_action
          rw [if_neg (by simp [hvp])]
          simp only [hci]
        rw [hrun]
        exact ⟨⟨rfl, rfl, rfl, rfl, rfl, rfl⟩, Or.inl rfl⟩
      | some cards =>
        by_cases hc : cards = ∅
        · have hrun : g.process_action player (.Tell info) =
              (g, .error (.IncorrectInfo info)) := by
            unfold Game.process_action
            rw [if_neg (by simp [hvp])]
            simp only [hci]
            rw [if_pos hc]
          rw [hrun]
          exact ⟨⟨rfl, rfl, rfl, rfl, rfl, rfl⟩, Or.inl rfl⟩
        · exfalso
          have hrun : (g.process_action player (.Tell info)).2 =
              .ok (some ⟨info.kind, cards, info.player⟩) := by
            unfold Game.process_action
            rw [if_neg (by simp [hvp])]
            simp only [hci]
            rw [if_neg hc]
          rw [hrun] at herr
          exact absurd herr (by simp)

theorem error_frame_w :
    ((exGame.process_action 0 (.Play 99)).1.stack = exGame.stack ∧
     (exGame.process_action 0 (.Play 99)).1.discards = exGame.discards ∧
     (exGame.process_action 0 (.Play 99)).1.field = exGame.field ∧
     (exGame.process_action 0 (.Play 99)).1.player_num =
       exGame.player_num ∧
     (exGame.process_action 0 (.Play 99)).1.is_multi = exGame.is_multi ∧
     (exGame.process_action 0 (.Play 99)).1.is_grand_finale =
       exGame.is_grand_finale) ∧
    ((exGame.process_action 0 (.Play 99)).1 = exGame ∨
      ∃ cid c p', Action.Play (99 : CardId) = .Play cid ∧
        exGame.get_card 0 cid = some (c, p') ∧
        (exGame.field.add c).1 = false ∧
        (exGame.process_action 0 (.Play 99)).1 =
          { exGame with players := exGame.players.set 0 p' }) :=
  error_frame exGame 0 (.Play 99) (.InvalidCard 99) (by decide)

/-- C3: for a Tell by a valid actor whose target is a valid player: if no
card in the target's hand matches the hint the action fails with
`IncorrectInfo`; if at least one matches, the action returns
`Ok (Some inner)` whose kind and player equal the request's and whose
cards set holds exactly the ids of the matching cards. -/
theorem tell_spec (g : Game) (player : Nat) (info : CardInfo)
    (hp : player < g.player_num) (ht : info.player < g.player_num) :
    ((g.players.getD info.player dfltPlayer).hands.filter
        (matchesKind info.kind) = [] →
      (g.process_action player (.Tell info)).2 =
        .error (.IncorrectInfo info)) ∧
    ((g.players.getD info.player dfltPlayer).hands.filter
        (matchesKind info.kind) ≠ [] →
      ∃ inner, (g.process_action player (.Tell info)).2 =
          .ok (some inner) ∧
        inner.kind = info.kind ∧ inner.player = info.player ∧
        ∀ cid : CardId, cid ∈ inner.cards ↔
          ∃ c ∈ (g.players.getD info.player dfltPlayer).hands,
            matchesKind info.kind c ∧ c.id = cid) := by
  have hci : g.construct_info info =
      some ((((g.players.getD info.player dfltPlayer).hands.filter
        (matchesKind info.kind)).map (fun card => card.id)).toFinset) := by
    simp [Game.construct_info, Game.is_valid_player, ht]
  constructor
  · intro hempty
    rw [List.getD_eq_getElem?_getD] at hempty
    have hcond : ∀ a ∈ (g.players[info.player]?.getD dfltPlayer).hands,
        matchesKind info.kind a = false := by
      intro a ha
      exact Bool.eq_false_iff.mpr
        (List.filter_eq_nil_iff.mp hempty a ha)
    simp [Game.process_action, Game.is_valid_player, hp, hci]
    rw [if_pos hcond]
  · intro hne
    have hcards : (((g.players.getD info.player dfltPlayer).hands.filter
        (matchesKind info.kind)).map (fun card => card.id)).toFinset ≠
          ∅ := by
      intro hc
      rw [List.toFinset_eq_empty_iff] at hc
      rw [List.map_eq_nil_iff] at hc
      exact hne hc
    refine ⟨⟨info.kind,
      (((g.players.getD info.player dfltPlayer).hands.filter
        (matchesKind info.kind)).map (fun card => card.id)).toFinset,
      info.player⟩, ?_, rfl, rfl, ?_⟩
    · simp [Game.process_action, Game.is_valid_player, hp, hci]
      rw [if_neg]
      intro hcond
      apply hne
      rw [List.getD_eq_getElem?_getD]
      exact List.filter_eq_nil_iff.mpr (fun a ha => by simp [hcond a ha])
    · intro cid
      simp only [List.mem_toFinset, List.mem_map, List.mem_filter]
      constructor
      · rintro ⟨c, ⟨hc, hq⟩, hid⟩
        exact ⟨c, hc, hq, hid⟩
      · rintro ⟨c, hc, hq, hid⟩
        exact ⟨c, ⟨hc, hq⟩, hid⟩

theorem tell_spec_w :
    ∃ inner, (exGame.process_action 1
        (.Tell ⟨.Color .Red, 0⟩)).2 = .ok (some inner) ∧
      inner.kind = .Color .Red ∧ inner.player = 0 ∧
      ∀ cid : CardId, cid ∈ inner.cards ↔
        ∃ c ∈ (exGame.players.getD 0 dfltPlayer).hands,
          matchesKind (.Color .Red) c ∧ c.id = cid :=
  (tell_spec exGame 1 ⟨.Color .Red, 0⟩ (by decide) (by decide)).2
    (by decide)

theorem last_number_eq_length {f : Field} {i : Nat}
    (h : StackOk i (f.inner.getD i [])) :
    f.last_number i = (f.inner.getD i []).length := by
  obtain ⟨-, hmap⟩ := h
  unfold Field.last_number
  rcases List.eq_nil_or_concat (f.inner.getD i []) with hnil | ⟨l', a, hcat⟩
  · rw [hnil]
    rfl
  · rw [List.concat_eq_append] at hcat
    rw [hcat, List.getLast?_concat]
    rw [hcat, List.map_append, List.length_append] at hmap
    simp only [List.map_cons, List.map_nil, List.length_cons,
      List.length_nil, Nat.zero_add] at hmap
    have hr : List.range' 1 (l'.length + 1) =
        List.range' 1 l'.length ++ [1 + l'.length] := by
      rw [List.range'_concat]
      simp
    rw [hr] at hmap
    have hinj := List.append_inj hmap (by simp)
    have ha : a.number.to_usize = 1 + l'.length := by
      have := hinj.2
      simpa using this
    show a.number.to_usize = (l' ++ [a]).length
    rw [ha, List.length_append]
    simp [Nat.add_comm]

theorem fieldInv_new : FieldInv Field.new := by decide

theorem fieldInv_add (card : Card) {f : Field} (h : FieldInv f) :
    FieldInv (f.add card).2 := by
  obtain ⟨hlen, hstk⟩ := h
  by_cases hc : f.last_number card.color.to_usize + 1 =
      card.number.to_usize
  · simp only [Field.add, if_pos hc]
    unfold FieldInv
    constructor
    · simpa using hlen
    · intro i hi
      by_cases hii : i = card.color.to_usize
      · rw [hii]
        have hi' : card.color.to_usize < 6 := hii ▸ hi
        have hset : ((f.inner.set card.color.to_usize
            ((f.inner.getD card.color.to_usize []) ++
            [card])).getD card.color.to_usize []) =
            (f.inner.getD card.color.to_usize []) ++ [card] := by
          rw [List.getD_eq_getElem?_getD,
            List.getElem?_set_eq_of_lt _ (by rw [hlen]; exact hi')]
          rfl
        show StackOk card.color.to_usize
          ((f.inner.set card.color.to_usize
            ((f.inner.getD card.color.to_usize []) ++
            [card])).getD card.color.to_usize [])
        rw [hset]
        obtain ⟨hcol, hmap⟩ := hstk card.color.to_usize hi'
        have hln := last_number_eq_length ⟨hcol, hmap⟩
        have hnum : card.number.to_usize =
            (f.inner.getD card.color.to_usize []).length + 1 := by omega
        constructor
        · intro c hcmem
          rcases List.mem_append.mp hcmem with h1 | h1
          · exact hcol c h1
          · rw [List.mem_singleton.mp h1]
        · rw [List.map_append, hmap]
          simp only [List.map_cons, List.map_nil, List.length_append,
            List.length_cons, List.length_nil]
          rw [hnum]
          have hr : List.range' 1
              ((f.inner.getD card.color.to_usize []).length + 1) =
              List.range' 1
                (f.inner.getD card.color.to_usize []).length ++
                [1 + (f.inner.getD card.color.to_usize []).length] := by
            rw [List.range'_concat]
            simp
          rw [show (f.inner.getD card.color.to_usize []).length + (0 +
            1) = (f.inner.getD card.color.to_usize []).length + 1 from
            by omega, hr]
          simp [Nat.add_comm]
      · have hset : ((f.inner.set card.color.to_usize
            ((f.inner.getD card.color.to_usize []) ++ [card])).getD i
              []) = f.inner.getD i [] := by
          rw [List.getD_eq_getElem?_getD,
            List.getElem?_set_ne (Ne.symm hii),
            ← List.getD_eq_getElem?_getD]
        show StackOk i ((f.inner.set card.color.to_usize
          ((f.inner.getD card.color.to_usize []) ++ [card])).getD i [])
        rw [hset]
        exact hstk i hi
  · simp only [Field.add, if_neg hc]
    exact ⟨hlen, hstk⟩

theorem fieldInv_process (g : Game) (player : Nat) (act : Action)
    (h : FieldInv g.field) :
    FieldInv (g.process_action player act).1.field := by
  by_cases hvp : g.is_valid_player player
  · cases act with
    | Discard id =>
      cases hg : g.get_card player id with
      | none =>
        have hrun : g.process_action player (.Discard id) =
            (g, .error (.InvalidCard id)) := by
          unfold Game.process_action
          rw [if_neg (by simp [hvp])]
          simp only [hg]
        rw [hrun]
        exact h
      | some cp =>
        obtain ⟨c, p'⟩ := cp
        have hrun : g.process_action player (.Discard id) =
            ({ g with players := g.players.set player p',
                      discards := g.discards ++ [c] }, .ok none) := by
          unfold Game.process_action
          rw [if_neg (by simp [hvp])]
          simp only [hg]
        rw [hrun]
        exact h
    | Play id =>
      cases hg : g.get_card player id with
      | none =>
        have hrun : g.process_action player (.Play id) =
            (g, .error (.InvalidCard id)) := by
          unfold Game.process_action
          rw [if_neg (by simp [hvp])]
          simp only [hg]
        rw [hrun]
        exact h
      | some cp =>
        obtain ⟨c, p'⟩ := cp
        cases hadd : g.field.add c with
        | mk b f' =>
          cases b with
          | false =>
            have hrun : g.process_action player (.Play id) =
                ({ g with players := g.players.set player p' },
                  .error (.InvalidCard id)) := by
              unfold Game.process_action
              rw [if_neg (by simp [hvp])]
              simp only [hg, hadd]
            rw [hrun]
            exact h
          | true =>
            have hrun : g.process_action player (.Play id) =
                ({ g with players := g.players.set player p',
                          field := f' }, .ok none) := by
              unfold Game.process_action
              rw [if_neg (by simp [hvp])]
              simp only [hg, hadd]
            rw [hrun]
            have hia := fieldInv_add c h
            rw [hadd] at hia
            exact hia
    | Tell info =>
      have hfr : (g.process_action player (.Tell info)).1 = g := by
        cases hci : g.construct_info info with
        | none =>
          unfold Game.process_action
          rw [if_neg (by simp [hvp])]
          simp only [hci]
        | some cards =>
          unfold Game.process_action
          rw [if_neg (by simp [hvp])]
          simp only [hci]
          by_cases hce : cards = ∅
          · rw [if_pos hce]
          · rw [if_neg hce]
      rw [hfr]
      exact h
  · have hrun : g.process_action player act =
        (g, .error (.InvalidPlayer player)) := by
      unfold Game.process_action
      rw [if_pos (by simp [hvp])]
    rw [hrun]
    exact h

/-- C6: the per-color-stack invariant — every stack holds cards of its own
color with ranks exactly 1, 2, …, k — holds for the empty field, is
preserved by every `Field.add` call and by every `process_action` call,
and holds for the field of every game built by `Config.build`. -/
theorem field_stacks_invariant (f : Field) (card : Card) (g : Game)
    (player : Nat) (act : Action) :
    FieldInv Field.new ∧
    (FieldInv f → FieldInv (f.add card).2) ∧
    (FieldInv g.field → FieldInv (g.process_action player act).1.field) ∧
    (∀ cfg shuffled g0, Config.build cfg shuffled = some g0 →
      FieldInv g0.field) := by
  refine ⟨fieldInv_new, fieldInv_add card, fieldInv_process g player act,
    ?_⟩
  intro cfg shuffled g0 hb
  unfold Config.build at hb
  split at hb
  · exact absurd hb (by simp)
  · have hf : g0.field = Field.new := by
      cases hb
      rfl
    rw [hf]
    exact fieldInv_new

theorem field_stacks_invariant_w :
    FieldInv Field.new ∧ FieldInv (Field.new.add exCard1).2 ∧
    FieldInv (exGame.process_action 0 (.Discard 0)).1.field :=
  ⟨(field_stacks_invariant Field.new exCard1 exGame 0 (.Discard 0)).1,
   (field_stacks_invariant Field.new exCard1 exGame 0 (.Discard 0)).2.1
     (by decide),
   (field_stacks_invariant Field.new exCard1 exGame 0
     (.Discard 0)).2.2.1 (by decide)⟩

theorem field_add_spec_w :
    Field.new.inner.length = 6 ∧
    ((Field.new.add exCard1).1 = true ↔
      exCard1.number.to_usize =
        Field.new.last_number exCard1.color.to_usize + 1) := by
  refine ⟨by decide, (field_add_spec Field.new exCard1 (by decide)).1⟩

/-- C5: for every player count in [2,5], either multi flag, and every
permutation used as the shuffle: the card universe has exactly 30 cards
(6 colors including Multi, ranks 1–5, each (rank, color) pair once) when
is_multi is false and exactly 25 cards (5 colors excluding Multi) when
is_multi is true; dealing succeeds, every player gets exactly 5 cards
when the player count is at most 3 and exactly 4 otherwise, and the
multiset union of all hands plus the remaining draw stack equals the
full universe. -/
theorem prepare_cards_spec (n : Nat) (m : Bool) (shuffled : List Card)
    (h2 : 2 ≤ n) (h5 : n ≤ 5) (hperm : shuffled.Perm (mkUniverse m)) :
    ((mkUniverse m).length = if m then 25 else 30) ∧
    ((mkUniverse m).map (fun c => (c.number, c.color)) =
      (colorVariants.take (if m then 5 else 6)).flatMap
        (fun var => numberVariants.map (fun num => (num, var)))) ∧
    ((mkUniverse m).map (fun c => (c.number, c.color))).Nodup ∧
    ((mkUniverse m).map (fun c => c.id)).Nodup ∧
    ∃ hands stack, prepare_cards n shuffled = some (hands, stack) ∧
      hands.length = n ∧
      (∀ h ∈ hands, h.length = if n ≤ 3 then 5 else 4) ∧
      (hands.flatten ++ stack).Perm (mkUniverse m) := by
  refine ⟨by cases m <;> decide, by cases m <;> decide,
    by cases m <;> decide, by cases m <;> decide, ?_⟩
  have hbound : (if n ≤ 3 then 5 else 4) *
      (List.replicate n ([] : List Card)).length ≤ shuffled.length := by
    rw [List.length_replicate, hperm.length_eq]
    have hul : (mkUniverse m).length = if m then 25 else 30 := by
      cases m <;> decide
    rw [hul]
    by_cases hn3 : n ≤ 3
    · rw [if_pos hn3]
      cases m <;> simp <;> omega
    · rw [if_neg hn3]
      cases m <;> simp <;> omega
  obtain ⟨hands, stack, hdr, hlen', hdlen, hperm'⟩ :=
    dealRounds_some (if n ≤ 3 then 5 else 4)
      (List.replicate n []) shuffled hbound
  refine ⟨hands, stack, hdr, ?_, ?_, ?_⟩
  · rw [hlen', List.length_replicate]
  · intro h hh
    have hu0 : ∀ x ∈ List.replicate n ([] : List Card),
        x.length = 0 := fun x hx => by
      rw [List.eq_of_mem_replicate hx]
      rfl
    have hx := dealRounds_uniform (if n ≤ 3 then 5 else 4)
      (List.replicate n []) shuffled hands stack 0 hdr hu0 h hh
    simpa using hx
  · have hx : (hands.flatten ++ stack).Perm
        ((List.replicate n ([] : List Card)).flatten ++ shuffled) :=
      hperm'
    have hrep : (List.replicate n ([] : List Card)).flatten ++
        shuffled = shuffled := by simp
    rw [hrep] at hx
    exact hx.trans hperm

theorem prepare_cards_spec_w :
    ∃ hands stack, prepare_cards 2 (mkUniverse false) =
        some (hands, stack) ∧
      hands.length = 2 ∧
      (∀ h ∈ hands, h.length = if 2 ≤ 3 then 5 else 4) ∧
      (hands.flatten ++ stack).Perm (mkUniverse false) :=
  (prepare_cards_spec 2 false (mkUniverse false) (by decide) (by decide)
    (List.Perm.refl _)).2.2.2.2

/-- C10: `Config.build` never fails for a config produced by
`Config.new` whatever the multi and grand-finale flags: the deal pops at
most 20 cards while the shuffled deck holds at least 25, so the pop of
the draw stack always yields a card. -/
theorem config_build_total (n : Nat) (mf gf : Bool) (c : Config)
    (shuffled : List Card) (hc : Config.new n = some c)
    (hperm : shuffled.Perm (mkUniverse mf)) :
    ∃ g, ((c.multi mf).grand_finale gf).build shuffled = some g := by
  unfold Config.new at hc
  split at hc
  · exact absurd hc (by simp)
  · rename_i hrange
    push_neg at hrange
    obtain ⟨h2, h5⟩ := hrange
    injection hc with hc'
    subst hc'
    have hbound : (if n ≤ 3 then 5 else 4) *
        (List.replicate n ([] : List Card)).length ≤
          shuffled.length := by
      rw [List.length_replicate, hperm.length_eq]
      have hul : (mkUniverse mf).length = if mf then 25 else 30 := by
        cases mf <;> decide
      rw [hul]
      by_cases hn3 : n ≤ 3
      · rw [if_pos hn3]
        cases mf <;> simp <;> omega
      · rw [if_neg hn3]
        cases mf <;> simp <;> omega
    obtain ⟨hands, stack, hdr, -, -, -⟩ :=
      dealRounds_some (if n ≤ 3 then 5 else 4)
        (List.replicate n []) shuffled hbound
    have hpc : prepare_cards n shuffled = some (hands, stack) := hdr
    refine ⟨{ players := (hands.enum).map (fun p => PlayerInfo.mk p.1 p.2),
              stack := stack, discards := [], field := Field.new,
              player_num := n, is_multi := mf,
              is_grand_finale := gf }, ?_⟩
    unfold Config.build
    simp only [Config.multi, Config.grand_finale]
    rw [hpc]

theorem config_build_total_w :
    ∃ g, (((Config.mk 2 false false).multi false).grand_finale
      false).build (mkUniverse false) = some g :=
  config_build_total 2 false false (Config.mk 2 false false)
    (mkUniverse false) (by decide) (List.Perm.refl _)

end Hanabi
